import Mathlib

/-!
Verification of the BVP scripts in `Intro-Soft-Matter-2025`.

The repository contains small Python scripts that solve the third-order
thin-film ODE  d3h/dx3 = -0.01 / (h^2 + h (+ eps))  as a first-order
system with boundary conditions h(0) = 0, h1(0) = 1, h2(L) = 0
(writing h1 for dh/dx and h2 for d2h/dx2), plus a Cox-Voinov
visualisation script.  Floating-point values are embedded as real
numbers; numpy arrays are embedded as functions from indices to reals
together with an explicit length.
-/

open Real

noncomputable section

namespace SoftMatter

/-! ### numpy primitives used by the scripts -/

/-- Embedding of `numpy.linspace a b n` (with endpoint): the i-th mesh
point is `a + (b - a) * i / (n - 1)`. -/
def linspace (a b : ℝ) (n : ℕ) : ℕ → ℝ :=
  fun i => a + (b - a) * i / ((n : ℝ) - 1)

/-- Embedding of `numpy.gradient f x` with default edge order: first-order
one-sided differences at the two ends and the second-order weighted
central difference on the (possibly non-uniform) interior. -/
def npGradient (f x : ℕ → ℝ) (n : ℕ) : ℕ → ℝ := fun i =>
  if i = 0 then (f 1 - f 0) / (x 1 - x 0)
  else if i = n - 1 then (f (n - 1) - f (n - 2)) / (x (n - 1) - x (n - 2))
  else
    let hs := x i - x (i - 1)
    let hd := x (i + 1) - x i
    (hs ^ 2 * f (i + 1) + (hd ^ 2 - hs ^ 2) * f i - hd ^ 2 * f (i - 1)) /
      (hs * hd * (hd + hs))

/-! ### ProblemModel: the ODE right-hand sides from the scripts -/

/-- The regularised denominator `h**2 + h + eps` computed inside
`ode_system` of George-Zhang-v1.1, George-Zhang-v1.3 and adam-kicman-v2. -/
def denom_reg (eps h : ℝ) : ℝ := h ^ 2 + h + eps

/-- The unregularised denominator `h**2 + h` used by `ode_system` of
adam-kicman-v1 and of Vatsal_SolutionChatGPT. -/
def denom_unreg (h : ℝ) : ℝ := h ^ 2 + h

/-- The scalar third-derivative value `-0.01 / (h**2 + h + eps)`. -/
def d3h (eps h : ℝ) : ℝ := -0.01 / denom_reg eps h

/-- `ode_system(x, y)` of George-Zhang-v1.1 / v1.3 and adam-kicman-v2
(each with its own module constant `eps`): `y` is a 3-row array
`(h, h1, h2)` over the mesh and the result is
`np.vstack((y[1], y[2], -0.01/(h**2+h+eps)))`, computed elementwise. -/
def ode_system (eps : ℝ) (x : ℕ → ℝ) (y : (ℕ → ℝ) × (ℕ → ℝ) × (ℕ → ℝ)) :
    (ℕ → ℝ) × (ℕ → ℝ) × (ℕ → ℝ) :=
  let h := y.1
  let d3 := fun i => d3h eps (h i)
  (y.2.1, y.2.2, d3)

/-- `ode_system(x, y)` of adam-kicman-v1 (and, with the same algebra,
`ode_system` of Vatsal_SolutionChatGPT): no regularisation term. -/
def ode_system_unreg (x : ℕ → ℝ) (y : (ℕ → ℝ) × (ℕ → ℝ) × (ℕ → ℝ)) :
    (ℕ → ℝ) × (ℕ → ℝ) × (ℕ → ℝ) :=
  let h := y.1
  let d3 := fun i => -0.01 / denom_unreg (h i)
  (y.2.1, y.2.2, d3)

/-- Module constant `eps = 1e-6` of George-Zhang-v1.1 and v1.3. -/
def eps_GZ : ℝ := 1e-6

/-- Module constant `eps = 1e-10` of adam-kicman-v2. -/
def eps_AK2 : ℝ := 1e-10

/-- The state of a 3-row array at one mesh point (a column). -/
def col (y : (ℕ → ℝ) × (ℕ → ℝ) × (ℕ → ℝ)) (i : ℕ) : ℝ × ℝ × ℝ :=
  (y.1 i, y.2.1 i, y.2.2 i)

/-! ### BoundaryConditions -/

/-- `bc(ya, yb)` shared by George-Zhang-v1.1 / v1.3, adam-kicman-v1 and
adam-kicman-v2: the residual vector
`(ya[0] - 0.0, ya[1] - 1.0, yb[2] - 0.0)`. -/
def bc (ya yb : ℝ × ℝ × ℝ) : ℝ × ℝ × ℝ :=
  (ya.1 - 0, ya.2.1 - 1, yb.2.2 - 0)

/-! ### InitialGuessBuilder -/

/-- The linear initial guess of the George-Zhang scripts and
adam-kicman-v1: row 0 is the mesh itself, row 1 is constant 1,
row 2 is constant 0. -/
def y_init_linear (x : ℕ → ℝ) : (ℕ → ℝ) × (ℕ → ℝ) × (ℕ → ℝ) :=
  (fun i => x i, fun _ => 1, fun _ => 0)

/-- The cubic guess value `h_guess = x - (x/x_max)**3` of adam-kicman-v2. -/
def h_guess (L x : ℝ) : ℝ := x - (x / L) ^ 3

/-- Row 0 of the adam-kicman-v2 initial guess: `h_guess` on the mesh. -/
def y_init_shape0 (L : ℝ) (x : ℕ → ℝ) : ℕ → ℝ := fun i => h_guess L (x i)

/-- Row 1 of the adam-kicman-v2 initial guess:
`np.gradient(h_guess, x)`. -/
def y_init_shape1 (L : ℝ) (x : ℕ → ℝ) (n : ℕ) : ℕ → ℝ :=
  npGradient (y_init_shape0 L x) x n

/-- Row 2 of the adam-kicman-v2 initial guess:
`np.gradient(y_init[1], x)`. -/
def y_init_shape2 (L : ℝ) (x : ℕ → ℝ) (n : ℕ) : ℕ → ℝ :=
  npGradient (y_init_shape1 L x n) x n

/-- The full shape-aware initial guess array of adam-kicman-v2. -/
def y_init_shape (L : ℝ) (x : ℕ → ℝ) (n : ℕ) :
    (ℕ → ℝ) × (ℕ → ℝ) × (ℕ → ℝ) :=
  (y_init_shape0 L x, y_init_shape1 L x n, y_init_shape2 L x n)

/-! ### Cox-Voinov-largeX.py -/

/-- `theta_cubed(x) = 1 + 0.03*np.log(np.e * x)`. -/
def theta_cubed (x : ℝ) : ℝ := 1 + 0.03 * Real.log (Real.exp 1 * x)

/-- `theta(x) = theta_cubed(x)**(1/3)`. -/
def theta (x : ℝ) : ℝ := theta_cubed x ^ ((1 : ℝ) / 3)

/-- `dtheta_dx(x) = 0.01 / (x * theta(x)**2)`. -/
def dtheta_dx (x : ℝ) : ℝ := 0.01 / (x * theta x ^ 2)

/-! ### George-Zhang-v1.0.py -/

/-- `h_prime(h) = -0.01 / (h**2 + h)`. -/
def h_prime (h : ℝ) : ℝ := -0.01 / (h ^ 2 + h)

/-- `h_double_prime(h) = -0.0001 * (2*h + 1) / (h**2 + h)**3`. -/
def h_double_prime (h : ℝ) : ℝ :=
  -0.0001 * (2 * h + 1) / (h ^ 2 + h) ^ 3

/-! ### The solve call site -/

/-- Modelled from the spec: `scipy.integrate.solve_bvp` is an external
library whose implementation is not part of the repository sources.  Per
the spec the solver never raises for non-convergence; it always hands
back a result object carrying a `status` code (0 means converged), the
derived `success` flag, and the best-available interpolated solution
`sol`.  We model the result object; the solver itself is an arbitrary
producer of such objects. -/
structure BVPResult where
  status : Int
  sol : ℝ → ℝ × ℝ × ℝ

/-- The `success` attribute of a solver result: `status == 0`. -/
def BVPResult.success (r : BVPResult) : Bool := r.status == 0

/-- The post-solve tail of George-Zhang-v1.1 (and adam-kicman-v2): warn
when `sol.status != 0` (resp. `not sol.success`), then unconditionally
evaluate the returned interpolant on a fine plotting grid.  The `Except`
codomain records that this continuation could in principle fail; the
script never does. -/
def post_solve (L : ℝ) (r : BVPResult) :
    Except String (Bool × (ℕ → ℝ × ℝ × ℝ)) :=
  let warned := decide (r.status ≠ 0)
  Except.ok (warned, fun i => r.sol (linspace 0 L 1000 i))

/-! ## Claims -/

/-- C1: at every mesh point `i`, the regularised `ode_system` returns the
state triple `(h1, h2, -0.01/(h^2 + h + eps))` built from the state
`(h, h1, h2)` at that point only, and the result does not depend on the
mesh coordinates `x` at all (pure, elementwise evaluation). -/
theorem ode_system_rhs_spec (eps : ℝ) (x : ℕ → ℝ)
    (y : (ℕ → ℝ) × (ℕ → ℝ) × (ℕ → ℝ)) (i : ℕ) :
    col (ode_system eps x y) i
      = (y.2.1 i, y.2.2 i, -0.01 / ((y.1 i) ^ 2 + y.1 i + eps)) ∧
    ode_system eps x y = ode_system eps (fun _ => 0) y := by
  exact ⟨rfl, rfl⟩

/-- C2: `bc ya yb` is exactly the residual vector
`(ya[0] - 0, ya[1] - 1, yb[2] - 0)`, and it vanishes precisely when the
boundary conditions h(0) = 0, h1(0) = 1, h2(L) = 0 hold. -/
theorem bc_residual_spec (ya yb : ℝ × ℝ × ℝ) :
    bc ya yb = (ya.1 - 0, ya.2.1 - 1, yb.2.2 - 0) ∧
    (bc ya yb = (0, 0, 0) ↔ ya.1 = 0 ∧ ya.2.1 = 1 ∧ yb.2.2 = 0) := by
  refine ⟨rfl, ?_⟩
  unfold bc
  rw [Prod.ext_iff, Prod.ext_iff]
  constructor
  · rintro ⟨h0, h1, h2⟩
    simp only at h0 h1 h2
    refine ⟨by linarith, by linarith, by linarith⟩
  · rintro ⟨h0, h1, h2⟩
    refine ⟨by simp [h0], by simp [h1], by simp [h2]⟩

/-- C3 counterexample: the right-hand side of adam-kicman-v1 (and of
Vatsal_SolutionChatGPT) carries no regularisation: at the admissible
state h = 0 its denominator `h^2 + h` equals 0, hence is not strictly
positive, refuting the claim that every RHS evaluation in the repository
uses a strictly positive eps. -/
theorem unreg_denom_not_pos :
    (0 : ℝ) ≤ 0 ∧ denom_unreg 0 = 0 ∧ ¬ 0 < denom_unreg 0 ∧
    (ode_system_unreg (fun _ => 0) (fun _ => 0, fun _ => 1, fun _ => 0)).2.2 0
      = -0.01 / denom_unreg 0 := by
  refine ⟨le_refl 0, by norm_num [denom_unreg], by norm_num [denom_unreg], rfl⟩

/-- C3 (amended): in the regularised variants the denominator
`h^2 + h + eps` is strictly positive (hence nonzero) for every
state h ≥ 0 and every eps > 0, which covers the module constants
eps = 1e-6 of the George-Zhang scripts and eps = 1e-10 of
adam-kicman-v2; the unregularised variants are excluded. -/
theorem reg_denom_pos (eps h : ℝ) (heps : 0 < eps) (hh : 0 ≤ h) :
    0 < denom_reg eps h ∧ denom_reg eps h ≠ 0 ∧
    0 < eps_GZ ∧ 0 < eps_AK2 := by
  have hsq : 0 ≤ h ^ 2 := sq_nonneg h
  have hpos : 0 < denom_reg eps h := by
    unfold denom_reg; linarith
  exact ⟨hpos, ne_of_gt hpos, by norm_num [eps_GZ], by norm_num [eps_AK2]⟩

/-- C3 witness: apply the amended theorem at eps = 1e-6 and h = 0. -/
theorem reg_denom_pos_witness :
    0 < eps_GZ ∧ (0 : ℝ) ≤ 0 ∧
    (0 < denom_reg eps_GZ 0 ∧ denom_reg eps_GZ 0 ≠ 0 ∧
      0 < eps_GZ ∧ 0 < eps_AK2) :=
  ⟨by norm_num [eps_GZ], le_refl 0,
    reg_denom_pos eps_GZ 0 (by norm_num [eps_GZ]) (le_refl 0)⟩

/-- C4: for 0 < eps1 < eps2 and any state h with h^2 + h ≥ 0, the
magnitude of the regularised third derivative is strictly smaller under
the larger regularisation. -/
theorem rhs_monotone_damping (eps1 eps2 h : ℝ) (h1 : 0 < eps1)
    (h12 : eps1 < eps2) (hs : 0 ≤ h ^ 2 + h) :
    |d3h eps2 h| < |d3h eps1 h| := by
  have hd1 : 0 < denom_reg eps1 h := by unfold denom_reg; linarith
  have hd2 : 0 < denom_reg eps2 h := by unfold denom_reg; linarith
  have hlt : denom_reg eps1 h < denom_reg eps2 h := by
    unfold denom_reg; linarith
  unfold d3h
  rw [abs_div, abs_div, abs_of_pos hd1, abs_of_pos hd2]
  have habs : |(-0.01 : ℝ)| = 0.01 := by norm_num
  rw [habs]
  exact div_lt_div_of_pos_left (by norm_num) hd1 hlt

/-- C4 witness: the damping inequality at eps1 = 1e-10 (adam-kicman-v2),
eps2 = 1e-6 (George-Zhang) and h = 0. -/
theorem rhs_monotone_damping_witness :
    0 < eps_AK2 ∧ eps_AK2 < eps_GZ ∧ (0 : ℝ) ≤ 0 ^ 2 + 0 ∧
    |d3h eps_GZ 0| < |d3h eps_AK2 0| :=
  ⟨by norm_num [eps_AK2], by norm_num [eps_AK2, eps_GZ], by norm_num,
    rhs_monotone_damping eps_AK2 eps_GZ 0 (by norm_num [eps_AK2])
      (by norm_num [eps_AK2, eps_GZ]) (by norm_num)⟩

/-- C5: the linear strategy puts the state (x, 1, 0) at every mesh
point; the shape-aware strategy puts h(x) = x - (x/L)^3 in row 0 and
fills rows 1 and 2 by `np.gradient` finite differencing on the given
mesh, which on a uniform mesh of spacing d reduces at interior points to
the symmetric difference quotient. -/
theorem init_guess_strategies (L : ℝ) (x : ℕ → ℝ) (n i : ℕ) (a d : ℝ)
    (hx : ∀ j, x j = a + d * j) (hd : d ≠ 0) (hi0 : 0 < i)
    (hin : i + 1 < n) :
    (∀ j, col (y_init_linear x) j = (x j, 1, 0)) ∧
    (∀ j, y_init_shape0 L x j = x j - (x j / L) ^ 3) ∧
    y_init_shape L x n
      = (y_init_shape0 L x, npGradient (y_init_shape0 L x) x n,
         npGradient (npGradient (y_init_shape0 L x) x n) x n) ∧
    npGradient (y_init_shape0 L x) x n i
      = (h_guess L (x (i + 1)) - h_guess L (x (i - 1))) / (2 * d) := by
  refine ⟨fun j => rfl, fun j => rfl, rfl, ?_⟩
  have hne0 : i ≠ 0 := Nat.pos_iff_ne_zero.mp hi0
  have hnen : i ≠ n - 1 := by omega
  have hcast : ((i - 1 : ℕ) : ℝ) = (i : ℝ) - 1 := by
    rw [Nat.cast_sub (by omega : 1 ≤ i)]; norm_num
  have e1 : x (i + 1) - x i = d := by
    rw [hx, hx]; push_cast; ring
  have e2 : x i - x (i - 1) = d := by
    rw [hx, hx, hcast]; ring
  simp only [npGradient, if_neg hne0, if_neg hnen]
  rw [e1, e2]
  simp only [y_init_shape0]
  have hden : d * d * (d + d) ≠ 0 := by
    have hcube : d * d * (d + d) = 2 * d ^ 3 := by ring
    rw [hcube]
    exact mul_ne_zero two_ne_zero (pow_ne_zero 3 hd)
  have h2d : (2 : ℝ) * d ≠ 0 := mul_ne_zero two_ne_zero hd
  rw [div_eq_div_iff hden h2d]
  ring

/-- C5 witness: the guess strategies on the uniform 3-point mesh
`linspace 0 2 3` (spacing 1) with L = 20, at interior index 1. -/
theorem init_guess_strategies_witness :
    (∀ j, linspace 0 2 3 j = 0 + 1 * j) ∧ (1 : ℝ) ≠ 0 ∧ 0 < 1 ∧
    1 + 1 < 3 ∧
    ((∀ j, col (y_init_linear (linspace 0 2 3)) j = (linspace 0 2 3 j, 1, 0)) ∧
     (∀ j, y_init_shape0 20 (linspace 0 2 3) j
        = linspace 0 2 3 j - (linspace 0 2 3 j / 20) ^ 3) ∧
     y_init_shape 20 (linspace 0 2 3) 3
       = (y_init_shape0 20 (linspace 0 2 3),
          npGradient (y_init_shape0 20 (linspace 0 2 3)) (linspace 0 2 3) 3,
          npGradient
            (npGradient (y_init_shape0 20 (linspace 0 2 3)) (linspace 0 2 3) 3)
            (linspace 0 2 3) 3) ∧
     npGradient (y_init_shape0 20 (linspace 0 2 3)) (linspace 0 2 3) 3 1
       = (h_guess 20 (linspace 0 2 3 (1 + 1)) - h_guess 20 (linspace 0 2 3 (1 - 1)))
         / (2 * 1)) := by
  have hx : ∀ j, linspace 0 2 3 j = 0 + 1 * (j : ℝ) := by
    intro j; unfold linspace; push_cast; ring
  exact ⟨hx, by norm_num, by norm_num, by norm_num,
    init_guess_strategies 20 (linspace 0 2 3) 3 1 0 1 hx (by norm_num)
      (by norm_num) (by norm_num)⟩

/-- C6 counterexample: on the actual mesh of George-Zhang-v1.1
(`linspace 0 50 200`), the linear initial guess satisfies the boundary
conditions exactly: the `bc` residual vector at its endpoint states is
exactly (0, 0, 0), refuting the claim that the residuals of every guess
strategy are never exactly zero. -/
theorem bc_linear_guess_exact :
    bc (col (y_init_linear (linspace 0 50 200)) 0)
       (col (y_init_linear (linspace 0 50 200)) 199) = (0, 0, 0) := by
  simp only [bc, col, y_init_linear, linspace]
  norm_num

/-- C6 (amended): on the source meshes `linspace 0 L n` (n ≥ 2, L > 0)
the shape-aware guess of adam-kicman-v2 meets the boundary conditions
approximately but not exactly: the thickness residual is exactly 0 while
the slope residual equals -1/((n-1)^2 L), which is nonzero; the linear
strategy, by contrast, meets them exactly (residual exactly (0,0,0)). -/
theorem bc_initial_guess_residuals (L : ℝ) (n : ℕ) (hL : 0 < L)
    (hn : 2 ≤ n) :
    bc (col (y_init_linear (linspace 0 L n)) 0)
       (col (y_init_linear (linspace 0 L n)) (n - 1)) = (0, 0, 0) ∧
    (bc (col (y_init_shape L (linspace 0 L n) n) 0)
        (col (y_init_shape L (linspace 0 L n) n) (n - 1))).1 = 0 ∧
    (bc (col (y_init_shape L (linspace 0 L n) n) 0)
        (col (y_init_shape L (linspace 0 L n) n) (n - 1))).2.1
      = -(1 / (((n : ℝ) - 1) ^ 2 * L)) ∧
    (bc (col (y_init_shape L (linspace 0 L n) n) 0)
        (col (y_init_shape L (linspace 0 L n) n) (n - 1))).2.1 ≠ 0 := by
  have hn2 : (2 : ℝ) ≤ (n : ℝ) := by exact_mod_cast hn
  have hn1 : (1 : ℝ) ≤ (n : ℝ) - 1 := by linarith
  have hnne : (n : ℝ) - 1 ≠ 0 := by linarith
  have hLne : L ≠ 0 := ne_of_gt hL
  have hx0 : linspace 0 L n 0 = 0 := by unfold linspace; norm_num
  have hx1 : linspace 0 L n 1 = L / ((n : ℝ) - 1) := by
    unfold linspace; push_cast; ring
  have hf0 : y_init_shape0 L (linspace 0 L n) 0 = 0 := by
    unfold y_init_shape0 h_guess
    rw [hx0]
    norm_num
  have hg0 : y_init_shape1 L (linspace 0 L n) n 0
      = (y_init_shape0 L (linspace 0 L n) 1 - y_init_shape0 L (linspace 0 L n) 0)
        / (linspace 0 L n 1 - linspace 0 L n 0) := by
    unfold y_init_shape1 npGradient
    simp
  have hslope : y_init_shape1 L (linspace 0 L n) n 0
      = 1 - 1 / (((n : ℝ) - 1) ^ 2 * L) := by
    rw [hg0, hf0, hx0, hx1]
    unfold y_init_shape0 h_guess
    rw [hx1]
    field_simp
    ring
  refine ⟨?_, ?_, ?_, ?_⟩
  · simp only [bc, col, y_init_linear]
    rw [hx0]
    norm_num
  · simp only [bc, col, y_init_shape]
    rw [hf0]
    norm_num
  · simp only [bc, col, y_init_shape]
    rw [hslope]
    ring
  · simp only [bc, col, y_init_shape]
    rw [hslope]
    have hpos : 0 < ((n : ℝ) - 1) ^ 2 * L :=
      mul_pos (pow_pos (by linarith) 2) hL
    have : 0 < 1 / (((n : ℝ) - 1) ^ 2 * L) := by positivity
    intro hcontra
    have : (1 : ℝ) - 1 / (((n : ℝ) - 1) ^ 2 * L) - 1
        = -(1 / (((n : ℝ) - 1) ^ 2 * L)) := by ring
    nlinarith [this]

/-- C6 witness: the amended residual facts at the adam-kicman-v2
configuration L = 20, n = 4000. -/
theorem bc_initial_guess_residuals_witness :
    (0 : ℝ) < 20 ∧ 2 ≤ 4000 ∧
    (bc (col (y_init_linear (linspace 0 20 4000)) 0)
        (col (y_init_linear (linspace 0 20 4000)) (4000 - 1)) = (0, 0, 0) ∧
     (bc (col (y_init_shape 20 (linspace 0 20 4000) 4000) 0)
         (col (y_init_shape 20 (linspace 0 20 4000) 4000) (4000 - 1))).1 = 0 ∧
     (bc (col (y_init_shape 20 (linspace 0 20 4000) 4000) 0)
         (col (y_init_shape 20 (linspace 0 20 4000) 4000) (4000 - 1))).2.1
       = -(1 / (((4000 : ℕ) - 1 : ℝ) ^ 2 * 20)) ∧
     (bc (col (y_init_shape 20 (linspace 0 20 4000) 4000) 0)
         (col (y_init_shape 20 (linspace 0 20 4000) 4000) (4000 - 1))).2.1
       ≠ 0) :=
  ⟨by norm_num, by norm_num,
    bc_initial_guess_residuals 20 4000 (by norm_num) (by norm_num)⟩

/-- C7: whenever the solver reports non-convergence (status different
from 0), the result still arrives as an ordinary value: the script's
continuation returns `Except.ok` carrying the raised warning flag and
the solution arrays evaluated from the returned interpolant, so callers
branch on the flag and keep using the arrays. -/
theorem nonconvergence_flagged_not_raised (L : ℝ) (r : BVPResult)
    (h : r.status ≠ 0) :
    r.success = false ∧
    post_solve L r
      = Except.ok (true, fun i => r.sol (linspace 0 L 1000 i)) := by
  constructor
  · simp [BVPResult.success, h]
  · unfold post_solve
    simp [h]

/-- C7 witness: a concrete non-converged result (status 1, zero
interpolant) at L = 50 flows through the continuation as an ok value. -/
theorem nonconvergence_flagged_not_raised_witness :
    (BVPResult.mk 1 (fun _ => (0, 0, 0))).status ≠ 0 ∧
    ((BVPResult.mk 1 (fun _ => (0, 0, 0))).success = false ∧
     post_solve 50 (BVPResult.mk 1 (fun _ => (0, 0, 0)))
       = Except.ok (true, fun i =>
           (BVPResult.mk 1 (fun _ => (0, 0, 0))).sol (linspace 0 50 1000 i))) :=
  ⟨by decide, nonconvergence_flagged_not_raised 50 _ (by decide)⟩

/-- C8: for x > 0 with theta_cubed x > 0, the plotted `dtheta_dx` is the
exact derivative of `theta`, and equivalently 3 theta^2 x dtheta_dx
equals the constant 0.03. -/
theorem dtheta_dx_exact (x : ℝ) (hx : 0 < x) (hth : 0 < theta_cubed x) :
    HasDerivAt theta (dtheta_dx x) x ∧
    3 * theta x ^ 2 * x * dtheta_dx x = 0.03 := by
  have hxne : x ≠ 0 := ne_of_gt hx
  have hexne : Real.exp 1 ≠ 0 := Real.exp_ne_zero 1
  have hmulne : Real.exp 1 * x ≠ 0 := mul_ne_zero hexne hxne
  have hune : theta_cubed x ≠ 0 := ne_of_gt hth
  have hlin : HasDerivAt (fun t : ℝ => Real.exp 1 * t) (Real.exp 1 * 1) x :=
    (hasDerivAt_id x).const_mul (Real.exp 1)
  have hlog : HasDerivAt (fun t : ℝ => Real.log (Real.exp 1 * t))
      ((Real.exp 1 * x)⁻¹ * (Real.exp 1 * 1)) x := by
    have hcomp := (Real.hasDerivAt_log hmulne).comp x hlin
    simpa [Function.comp] using hcomp
  have hu : HasDerivAt theta_cubed
      (0.03 * ((Real.exp 1 * x)⁻¹ * (Real.exp 1 * 1))) x := by
    unfold theta_cubed
    exact (hlog.const_mul 0.03).const_add 1
  have hDu : 0.03 * ((Real.exp 1 * x)⁻¹ * (Real.exp 1 * 1)) = 0.03 / x := by
    rw [mul_inv]
    field_simp
    ring
  rw [hDu] at hu
  have hsq : theta x ^ 2 = theta_cubed x ^ ((2 : ℝ) / 3) := by
    rw [theta, ← Real.rpow_natCast (theta_cubed x ^ ((1 : ℝ) / 3)) 2,
        ← Real.rpow_mul hth.le]
    norm_num
  have hsqpos : 0 < theta_cubed x ^ ((2 : ℝ) / 3) :=
    Real.rpow_pos_of_pos hth _
  have hth1 : HasDerivAt theta
      (0.03 / x * ((1 : ℝ) / 3) * theta_cubed x ^ ((1 : ℝ) / 3 - 1)) x := by
    unfold theta
    exact hu.rpow_const (Or.inl hune)
  have hval : 0.03 / x * ((1 : ℝ) / 3) * theta_cubed x ^ ((1 : ℝ) / 3 - 1)
      = dtheta_dx x := by
    have hexp : ((1 : ℝ) / 3 - 1) = -((2 : ℝ) / 3) := by norm_num
    rw [hexp, Real.rpow_neg hth.le, dtheta_dx, hsq]
    have hne : theta_cubed x ^ ((2 : ℝ) / 3) ≠ 0 := ne_of_gt hsqpos
    field_simp
    ring
  rw [hval] at hth1
  refine ⟨hth1, ?_⟩
  have hθne : theta x ^ 2 ≠ 0 := by rw [hsq]; exact ne_of_gt hsqpos
  rw [dtheta_dx]
  field_simp
  ring

/-- C8 witness: the derivative identity at x = 1, where
theta_cubed 1 = 1.03 > 0. -/
theorem dtheta_dx_exact_witness :
    (0 : ℝ) < 1 ∧ 0 < theta_cubed 1 ∧
    (HasDerivAt theta (dtheta_dx 1) 1 ∧
     3 * theta 1 ^ 2 * 1 * dtheta_dx 1 = 0.03) := by
  have h1 : (0 : ℝ) < 1 := one_pos
  have h2 : 0 < theta_cubed 1 := by
    unfold theta_cubed
    rw [mul_one, Real.log_exp]
    norm_num
  exact ⟨h1, h2, dtheta_dx_exact 1 h1 h2⟩

/-- C9: away from the singular set h^2 + h = 0, the hard-coded
`h_double_prime` of George-Zhang-v1.0 is exactly the chain-rule
derivative of `h_prime` along the flow: the derivative of `h_prime`
times the velocity `h_prime` itself. -/
theorem h_double_prime_chain_rule (h : ℝ) (hs : h ^ 2 + h ≠ 0) :
    h_double_prime h = deriv h_prime h * h_prime h := by
  have hden : HasDerivAt (fun t : ℝ => t ^ 2 + t) (2 * h + 1) h := by
    have hpow := hasDerivAt_pow 2 h
    have hid := hasDerivAt_id h
    have hsum := hpow.add hid
    convert hsum using 1
    push_cast
    ring
  have hdiv : HasDerivAt h_prime
      ((0 * (h ^ 2 + h) - -0.01 * (2 * h + 1)) / (h ^ 2 + h) ^ 2) h := by
    unfold h_prime
    exact (hasDerivAt_const h (-0.01)).div hden hs
  rw [hdiv.deriv]
  unfold h_double_prime h_prime
  field_simp
  ring

/-- C9 witness: the chain-rule identity at h = 1 (denominator 2). -/
theorem h_double_prime_chain_rule_witness :
    ((1 : ℝ) ^ 2 + 1 ≠ 0) ∧
    h_double_prime 1 = deriv h_prime 1 * h_prime 1 :=
  ⟨by norm_num, h_double_prime_chain_rule 1 (by norm_num)⟩

/-- The cubic guess value x - (x/L)^3 is nonnegative on [0, L] once
L ≥ 1 (so that x^3 ≤ x L^3 there). -/
theorem h_guess_nonneg_aux (L x : ℝ) (hL : 1 ≤ L) (hx0 : 0 ≤ x)
    (hxL : x ≤ L) : 0 ≤ h_guess L x := by
  have hLpos : (0 : ℝ) < L := lt_of_lt_of_le one_pos hL
  have hL3 : (0 : ℝ) < L ^ 3 := by positivity
  unfold h_guess
  rw [div_pow, sub_nonneg, div_le_iff₀ hL3]
  have hx2 : x ^ 2 ≤ L ^ 2 := by nlinarith
  have hstep1 : x ^ 3 ≤ x * L ^ 2 := by nlinarith
  have hL23 : L ^ 2 ≤ L ^ 3 := by nlinarith
  nlinarith

/-- C10: on any 1 ≤ L, the adam-kicman-v2 cubic guess h(x) = x - (x/L)^3
is nonnegative throughout [0, L] and vanishes at x = 0; in particular it
is nonnegative at every one of the 4000 mesh points of the L = 20 solve. -/
theorem shape_guess_nonneg (L x : ℝ) (hL : 1 ≤ L) (hx0 : 0 ≤ x)
    (hxL : x ≤ L) :
    0 ≤ h_guess L x ∧ h_guess L 0 = 0 ∧
    ∀ i, i < 4000 → 0 ≤ h_guess 20 (linspace 0 20 4000 i) := by
  refine ⟨h_guess_nonneg_aux L x hL hx0 hxL, ?_, ?_⟩
  · unfold h_guess
    norm_num
  · intro i hi
    apply h_guess_nonneg_aux 20 _ (by norm_num)
    · unfold linspace
      norm_num
      positivity
    · have hi' : (i : ℝ) ≤ 3999 := by
        have hnat : i ≤ 3999 := by omega
        exact_mod_cast hnat
      unfold linspace
      push_cast
      norm_num
      rw [div_le_iff₀ (by norm_num : (0 : ℝ) < 3999)]
      linarith

/-- C10 witness: the guess nonnegativity at L = 20, x = 5, together with
the mesh-wide statement. -/
theorem shape_guess_nonneg_witness :
    (1 : ℝ) ≤ 20 ∧ (0 : ℝ) ≤ 5 ∧ (5 : ℝ) ≤ 20 ∧
    (0 ≤ h_guess 20 5 ∧ h_guess 20 0 = 0 ∧
     ∀ i, i < 4000 → 0 ≤ h_guess 20 (linspace 0 20 4000 i)) :=
  ⟨by norm_num, by norm_num, by norm_num,
    shape_guess_nonneg 20 5 (by norm_num) (by norm_num) (by norm_num)⟩

end SoftMatter
